import Mathlib

/-!
Verification of the SFHandle star-formation-history package.

The embedding models `sfh.py` and `utilities.py`.  Floating-point values are
modelled as exact rationals; a NaN entry of a rate (or rate-error) array is
modelled as `none : Option ℚ`, a finite entry `v` as `some v`.  Look-back
time arrays are rational lists.  `numpy.nansum` is the NaN-ignoring sum, and
`scipy.interpolate.interp1d` with `kind='next'` is modelled by its documented
semantics (value at the nearest reference edge that is greater than or equal
to the query point, out-of-range queries filled or rejected), which is pinned
by the package's own test-suite examples.
-/

/-- Value of a possibly-NaN float under numpy's NaN-ignoring summation:
a NaN term contributes `0`. -/
def val (x : Option ℚ) : ℚ := x.getD 0

/-- Product of a possibly-NaN float with a finite float (NaN absorbs). -/
def mulF (a : Option ℚ) (b : ℚ) : Option ℚ := a.map (fun y => y * b)

/-- Model of `numpy.nansum`: sum of a list treating NaN entries as zero. -/
def nansum (l : List (Option ℚ)) : ℚ := (l.map val).sum

/-- The `SFH` record of `sfh.py`: the three parallel series set by the
constructor and the three cached resampled series (`None` until
`interpolate_sfh` runs). -/
structure SFH where
  lb_time : List ℚ
  sfh : List (Option ℚ)
  err : List (Option ℚ)
  interp_lb_time : Option (List ℚ)
  interp_sfh : Option (List (Option ℚ))
  interp_err : Option (List (Option ℚ))
deriving Repr, DecidableEq

/-- Model of `SFH.__init__`: stores the three arrays as given, with no shape
validation, and sets the three interpolation caches to `None`. -/
def SFH.init (lb_time : List ℚ) (sfh err : List (Option ℚ)) : SFH :=
  { lb_time := lb_time, sfh := sfh, err := err,
    interp_lb_time := none, interp_sfh := none, interp_err := none }

/-- The `SFH.integral` property:
`tstep = lb_time[::-1][:-1] - lb_time[::-1][1:]` and the result is
`np.nansum(sfh[::-1][:-1] * tstep) * 1e6`. -/
def SFH.integral (s : SFH) : ℚ :=
  (nansum (List.zipWith mulF s.sfh.reverse.dropLast
    (List.zipWith (fun a b => a - b) s.lb_time.reverse.dropLast
      (s.lb_time.reverse.drop 1)))) * 1000000

/-- Model of `SFH.integrated_sfh_at`: select the edges with `lb_time >= t` (together
with their rates, via the shared boolean mask), return `0` when none
qualify, otherwise prepend the partial width `lb_time[mask][0] - t` to the
consecutive gaps of the selected edges and take the NaN-safe sum of
rate-times-width, scaled by `1e6`. -/
def SFH.integrated_sfh_at (s : SFH) (t : ℚ) : ℚ :=
  match (s.lb_time.zip s.sfh).filter (fun p => decide (t ≤ p.1)) with
  | [] => 0
  | p :: rest =>
      let mt := (p :: rest).map Prod.fst
      let tstep := List.zipWith (fun a b => a - b) (mt.drop 1) mt.dropLast
      (nansum (List.zipWith mulF ((p :: rest).map Prod.snd)
        ((p.1 - t) :: tstep))) * 1000000

/-- Error kinds raised by `scipy.interpolate.interp1d` as the spec names
them: mismatched `x`/`y` lengths, fewer reference points than the
interpolation kind needs, and an out-of-range query under strict bounds
checking. -/
inductive InterpError where
  | shapeMismatch : InterpError
  | insufficientData : InterpError
  | outOfDomain : InterpError
deriving Repr, DecidableEq

/-- Stable insertion of a pair into a list sorted by first component,
placing the new pair before existing ties. -/
def insertPair (p : ℚ × Option ℚ) : List (ℚ × Option ℚ) → List (ℚ × Option ℚ)
  | [] => [p]
  | q :: r => if p.1 ≤ q.1 then p :: q :: r else q :: insertPair p r

/-- Stable sort by first component: model of `interp1d`'s internal stable
argsort of the reference abscissae (with `y` carried along). -/
def sortPairs : List (ℚ × Option ℚ) → List (ℚ × Option ℚ)
  | [] => []
  | p :: r => insertPair p (sortPairs r)

/-- Strict bounds check of `interp1d`: does some query point lie below the
smallest or above the largest reference abscissa? -/
def out_of_bounds (x0 : ℚ) (xs : List ℚ) (new_x : List ℚ) : Bool :=
  new_x.any (fun q => decide (q < xs.foldl min x0) || decide (xs.foldl max x0 < q))

/-- Model of `interp1d(old_x, old_y, kind='next', bounds_error, fill_value)`
applied to `new_x`.  Mirrors scipy's order of failure: the `x`/`y` length
check at construction, then the minimum-data check (`kind='next'` needs at
least one reference point), then the call-time strict bounds check; an
in-range query gets the `y` value of the first sorted reference edge at or
above it, an out-of-range query gets `fill_value` when `bounds_error` is
off.  The unreachable `find?`-miss fallback also yields `fill_value`. -/
def interp1d (old_x : List ℚ) (old_y : List (Option ℚ)) (bounds_error : Bool)
    (fill_value : Option ℚ) (new_x : List ℚ) :
    Except InterpError (List (Option ℚ)) :=
  if old_x.length = old_y.length then
    match old_x with
    | [] => .error .insufficientData
    | x0 :: xs =>
      if bounds_error && out_of_bounds x0 xs new_x then
        .error .outOfDomain
      else
        .ok (new_x.map (fun q =>
          if q < xs.foldl min x0 ∨ xs.foldl max x0 < q then fill_value
          else
            match (sortPairs (old_x.zip old_y)).find?
                (fun p => decide (q ≤ p.1)) with
            | some p => p.2
            | none => fill_value))
  else .error .shapeMismatch

/-- Model of `SFH.interpolate_sfh` with the default `kind='next'`.  Python mutation
order is kept: the query grid is stored into `_interp_lb_time` first, then
the rate series is interpolated and cached, then the rate-error series; an
exception propagates immediately, leaving the mutations made so far.  The
returned pair is the post-call record together with either the raised error
or the returned `(interp_sfh, interp_err)` value. -/
def SFH.interpolate_sfh (s : SFH) (lb_time : List ℚ) (bounds_error : Bool)
    (fill_value : Option ℚ) :
    SFH × Except InterpError (List (Option ℚ) × List (Option ℚ)) :=
  let s1 : SFH := { s with interp_lb_time := some lb_time }
  match interp1d s.lb_time s.sfh bounds_error fill_value lb_time with
  | .error e => (s1, .error e)
  | .ok new_sfh =>
    let s2 : SFH := { s1 with interp_sfh := some new_sfh }
    match interp1d s.lb_time s.err bounds_error fill_value lb_time with
    | .error e => (s2, .error e)
    | .ok new_err =>
        ({ s2 with interp_err := some new_err }, .ok (new_sfh, new_err))

/-- The nine `bayes.sfh.sfr_binK` column names of `utilities.cigale_sfh`. -/
def yy : List String :=
  ["bayes.sfh.sfr_bin1", "bayes.sfh.sfr_bin2", "bayes.sfh.sfr_bin3",
   "bayes.sfh.sfr_bin4", "bayes.sfh.sfr_bin5", "bayes.sfh.sfr_bin6",
   "bayes.sfh.sfr_bin7", "bayes.sfh.sfr_bin8", "bayes.sfh.sfr_bin9"]

/-- The nine `bayes.sfh.sfr_binK_err` column names. -/
def yy_err : List String :=
  ["bayes.sfh.sfr_bin1_err", "bayes.sfh.sfr_bin2_err", "bayes.sfh.sfr_bin3_err",
   "bayes.sfh.sfr_bin4_err", "bayes.sfh.sfr_bin5_err", "bayes.sfh.sfr_bin6_err",
   "bayes.sfh.sfr_bin7_err", "bayes.sfh.sfr_bin8_err", "bayes.sfh.sfr_bin9_err"]

/-- The nine `bayes.sfh.time_binK` column names. -/
def xx : List String :=
  ["bayes.sfh.time_bin1", "bayes.sfh.time_bin2", "bayes.sfh.time_bin3",
   "bayes.sfh.time_bin4", "bayes.sfh.time_bin5", "bayes.sfh.time_bin6",
   "bayes.sfh.time_bin7", "bayes.sfh.time_bin8", "bayes.sfh.time_bin9"]

/-- Model of `utilities.cigale_sfh`, with a catalogue row modelled as a map from
column name to numeric value.  Note that both comprehensions written
`[galaxy[xx_] for xx_ in yy]` and `[galaxy[xx_] for xx_ in yy_err]` iterate
over the rate / rate-error column-name tuples (the loop variable name is a
misnomer), and that `galaxy[yy_err][0]` takes the first entry of the
rate-error sub-row.  The bare statement `galaxy[xx]` in the source has no
effect and is not modelled. -/
def cigale_sfh (galaxy : String → ℚ) : List ℚ × List ℚ × List ℚ :=
  let x := 0 :: xx.map galaxy
  let y := ((galaxy (yy.getD 0 ("" ))) :: yy.map galaxy).map
    (fun v => v * galaxy ("bayes.sfh.integrated"))
  let y_err := (((yy_err.map galaxy).getD 0 0) :: yy_err.map galaxy).map
    (fun v => v * galaxy ("bayes.sfh.integrated"))
  (x, y, y_err)

/-- Follows the spec's words, for comparison with `SFH.integral` (spec
section 4.3): integration covers `N-1` bins for `N` edges, each gap's
contribution being its width times the rate aligned to the *younger*
(smaller look-back time) edge of the gap. -/
def integral_younger_spec (s : SFH) : ℚ :=
  (nansum (List.zipWith mulF s.sfh.dropLast
    (List.zipWith (fun a b => a - b) (s.lb_time.drop 1) s.lb_time.dropLast)))
    * 1000000

/-- A list of possibly-NaN rates with every NaN replaced by the zero it is
required to contribute. -/
def denan (l : List (Option ℚ)) : List (Option ℚ) := l.map (fun r => some (val r))

/-- Mass (before the `1e6` unit scaling) formed by a run of consecutive
selected bin edges, each rate paired with the width back to the previous
edge, starting from the lower bound `tprev`.  Normal form shared by the
integral theorems. -/
def binMass (tprev : ℚ) : List (ℚ × Option ℚ) → ℚ
  | [] => 0
  | p :: rest => val p.2 * (p.1 - tprev) + binMass p.1 rest

/-- A concrete catalogue row used as test input: rate bin `K` holds `K`,
rate-error bin `K` holds `10 + K`, time bin `K` holds `100 + K`, and the
integrated-mass scalar is `2`. -/
def gRow (c : String) : ℚ :=
  (((xx.zip [(101:ℚ), 102, 103, 104, 105, 106, 107, 108, 109]) ++
    (yy.zip [(1:ℚ), 2, 3, 4, 5, 6, 7, 8, 9]) ++
    (yy_err.zip [(11:ℚ), 12, 13, 14, 15, 16, 17, 18, 19]) ++
    [("bayes.sfh.integrated", (2:ℚ))]).lookup c).getD 0

/-! ### Basic lemmas about the NaN-safe sum -/

theorem nansum_nil : nansum [] = 0 := rfl

theorem nansum_cons (a : Option ℚ) (l : List (Option ℚ)) :
    nansum (a :: l) = val a + nansum l := by
  simp [nansum]

theorem val_mulF (a : Option ℚ) (b : ℚ) : val (mulF a b) = val a * b := by
  cases a <;> simp [val, mulF]

theorem nansum_eq_sum_filterMap (l : List (Option ℚ)) :
    nansum l = (l.filterMap id).sum := by
  induction l with
  | nil => rfl
  | cons a l ih =>
      cases a <;> simp [nansum_cons, ih, val]

theorem nansum_reverse (l : List (Option ℚ)) : nansum l.reverse = nansum l := by
  simp [nansum, List.map_reverse, List.sum_reverse]

theorem map_dropLast {α β : Type} (f : α → β) (l : List α) :
    (l.map f).dropLast = l.dropLast.map f := by
  induction l with
  | nil => rfl
  | cons a l ih =>
      cases l with
      | nil => rfl
      | cons b l' =>
          simp only [List.map_cons, List.dropLast_cons₂] at ih ⊢
          rw [ih]

/-! ### The gap sum in both methods reduces to `binMass` -/

theorem nansum_gaps (pairs : List (ℚ × Option ℚ)) :
    ∀ tprev : ℚ,
      nansum (List.zipWith mulF (pairs.map Prod.snd)
        (List.zipWith (fun a b => a - b) (pairs.map Prod.fst)
          (tprev :: (pairs.map Prod.fst).dropLast)))
      = binMass tprev pairs := by
  induction pairs with
  | nil => intro tprev; rfl
  | cons p r ih =>
      intro tprev
      cases r with
      | nil => simp [binMass, nansum_cons, nansum_nil, val_mulF]
      | cons q r' =>
          have h := ih p.1
          simp only [List.map_cons, List.dropLast_cons₂, List.zipWith_cons_cons,
            nansum_cons, val_mulF, binMass] at h ⊢
          linarith [h]

theorem integrated_sfh_at_eq_binMass (s : SFH) (t : ℚ) :
    s.integrated_sfh_at t
      = binMass t ((s.lb_time.zip s.sfh).filter (fun p => decide (t ≤ p.1)))
        * 1000000 := by
  unfold SFH.integrated_sfh_at
  cases h : (s.lb_time.zip s.sfh).filter (fun p => decide (t ≤ p.1)) with
  | nil => simp [binMass]
  | cons p rest =>
      have hg := nansum_gaps (p :: rest) t
      simp only [List.map_cons, List.zipWith_cons_cons] at hg
      simp only [List.map_cons, List.drop_succ_cons, List.drop_zero,
        List.zipWith_cons_cons]
      rw [hg]

/-! ### The reversed slicing in `SFH.integral` in forward order -/

theorem reverse_dropLast {α : Type} (l : List α) :
    l.reverse.dropLast = l.tail.reverse := by
  have h := List.tail_reverse_eq_reverse_dropLast l.reverse
  rw [List.reverse_reverse] at h
  rw [h, List.reverse_reverse]

theorem integral_forward (s : SFH) (hlen : s.lb_time.length = s.sfh.length) :
    s.integral = (nansum (List.zipWith mulF (s.sfh.drop 1)
      (List.zipWith (fun a b => a - b) (s.lb_time.drop 1) s.lb_time.dropLast)))
      * 1000000 := by
  have h1 : s.lb_time.tail.length = s.lb_time.dropLast.length := by
    simp [List.length_tail, List.length_dropLast]
  have h2 : s.sfh.tail.length
      = (List.zipWith (fun a b : ℚ => a - b) s.lb_time.tail
          s.lb_time.dropLast).length := by
    simp [List.length_zipWith, List.length_tail, List.length_dropLast, hlen]
  unfold SFH.integral
  rw [reverse_dropLast s.sfh, reverse_dropLast s.lb_time, List.drop_one,
    List.tail_reverse_eq_reverse_dropLast, ← List.reverse_zipWith h1,
    ← List.reverse_zipWith h2, nansum_reverse]
  simp [List.drop_one]

/-- Claim C1 (amended): for a record with sorted time edges and rates of
matching length, the total integral is `1e6` times a NaN-safe sum of `N-1`
terms, one per gap between consecutive edges, each term being the gap width
times the rate aligned to the *older* (larger look-back time) edge of the
gap; the youngest edge's rate contributes nothing. -/
theorem integral_sums_gaps_older_edge (s : SFH)
    (hsort : s.lb_time.Pairwise (fun a b => a ≤ b))
    (hlen : s.lb_time.length = s.sfh.length) :
    s.integral = (nansum (List.zipWith mulF (s.sfh.drop 1)
      (List.zipWith (fun a b => a - b) (s.lb_time.drop 1) s.lb_time.dropLast)))
      * 1000000 :=
  integral_forward s hlen

/-- Witness for C1: a sorted three-edge record satisfies the hypotheses and
the amended equation. -/
theorem integral_sums_gaps_older_edge_witness :
    (SFH.init [0, 1, 10] [some 1, some 2, some 3]
        [some 2, some 3, some 4]).lb_time.Pairwise (fun a b => a ≤ b) ∧
    (SFH.init [0, 1, 10] [some 1, some 2, some 3]
        [some 2, some 3, some 4]).integral
      = (nansum (List.zipWith mulF
          ((SFH.init [0, 1, 10] [some 1, some 2, some 3]
            [some 2, some 3, some 4]).sfh.drop 1)
          (List.zipWith (fun a b => a - b)
            ((SFH.init [0, 1, 10] [some 1, some 2, some 3]
              [some 2, some 3, some 4]).lb_time.drop 1)
            (SFH.init [0, 1, 10] [some 1, some 2, some 3]
              [some 2, some 3, some 4]).lb_time.dropLast))) * 1000000 :=
  ⟨by decide,
   integral_sums_gaps_older_edge
     (SFH.init [0, 1, 10] [some 1, some 2, some 3] [some 2, some 3, some 4])
     (by decide) (by decide)⟩

/-- Counterexample to C1 as stated: on `time=[0,1]`, `rate=[1,2]` the code's
total integral is `2e6` (rate `2` at the older edge of the single gap),
whereas the spec's younger-edge alignment would give `1e6`; the two
disagree. -/
theorem integral_younger_alignment_cex :
    (SFH.init [0, 1] [some 1, some 2] [some 2, some 3]).integral = 2000000 ∧
    integral_younger_spec
      (SFH.init [0, 1] [some 1, some 2] [some 2, some 3]) = 1000000 ∧
    (SFH.init [0, 1] [some 1, some 2] [some 2, some 3]).integral
      ≠ integral_younger_spec
          (SFH.init [0, 1] [some 1, some 2] [some 2, some 3]) :=
  ⟨by with_unfolding_all rfl, by with_unfolding_all rfl,
   of_decide_eq_true (by with_unfolding_all rfl)⟩

/-- Claim C6: on `time=[0,1]`, `rate=[1,2]`, `err=[2,3]`, resampling on
`[0, 0.5, 1, 1.5]` with the default next-value step, `bounds_error=False`
and `fill_value=0` returns rates `[1, 2, 2, 0]` and errors `[2, 3, 3, 0]`. -/
theorem interpolate_sfh_step_semantics :
    ((SFH.init [0, 1] [some 1, some 2] [some 2, some 3]).interpolate_sfh
        [0, mkRat 1 2, 1, mkRat 3 2] false (some 0)).2
      = Except.ok ([some 1, some 2, some 2, some 0],
          [some 2, some 3, some 3, some 0]) := by
  with_unfolding_all rfl

/-- Claim C7: when the query look-back time is strictly beyond every
recorded edge, `integrated_sfh_at` returns exactly `0`. -/
theorem integrated_sfh_at_before_birth (s : SFH) (t : ℚ)
    (h : ∀ x ∈ s.lb_time, x < t) :
    s.integrated_sfh_at t = 0 := by
  have hf : (s.lb_time.zip s.sfh).filter (fun p => decide (t ≤ p.1)) = [] := by
    rw [List.filter_eq_nil_iff]
    intro p hp
    obtain ⟨a, b⟩ := p
    have ha := (List.of_mem_zip hp).1
    simpa using not_le.mpr (h a ha)
  unfold SFH.integrated_sfh_at
  rw [hf]

/-- Witness for C7: query `10.1` on edges `[0, 1, 10]` yields `0`. -/
theorem integrated_sfh_at_before_birth_witness :
    (∀ x ∈ (SFH.init [0, 1, 10] [some 1, some 2, some 3]
        [some 2, some 3, some 4]).lb_time, x < mkRat 101 10) ∧
    (SFH.init [0, 1, 10] [some 1, some 2, some 3]
        [some 2, some 3, some 4]).integrated_sfh_at (mkRat 101 10) = 0 :=
  ⟨by decide,
   integrated_sfh_at_before_birth
     (SFH.init [0, 1, 10] [some 1, some 2, some 3] [some 2, some 3, some 4])
     (mkRat 101 10) (by decide)⟩

/-- Claim C10: the constructor accepts any three sequences, of equal lengths
or not: it stores them verbatim, initialises the three interpolation caches
to `None`, and has no failing path (no shape validation is performed). -/
theorem SFH_constructor_accepts_any_shapes (lb_time : List ℚ)
    (sfh err : List (Option ℚ)) :
    (SFH.init lb_time sfh err).lb_time = lb_time ∧
    (SFH.init lb_time sfh err).sfh = sfh ∧
    (SFH.init lb_time sfh err).err = err ∧
    (SFH.init lb_time sfh err).interp_lb_time = none ∧
    (SFH.init lb_time sfh err).interp_sfh = none ∧
    (SFH.init lb_time sfh err).interp_err = none :=
  ⟨rfl, rfl, rfl, rfl, rfl, rfl⟩

/-- Claim C9: resampling an SFH whose time and rate series are both empty
fails with `InsufficientData`, whatever the grid, bounds flag and fill
value. -/
theorem interpolate_sfh_empty_insufficient (s : SFH) (grid : List ℚ)
    (bounds_error : Bool) (fill_value : Option ℚ)
    (ht : s.lb_time = []) (hr : s.sfh = []) :
    (s.interpolate_sfh grid bounds_error fill_value).2
      = Except.error InterpError.insufficientData := by
  unfold SFH.interpolate_sfh
  rw [ht, hr]
  rfl

/-- Witness for C9: the concrete empty record fails with
`InsufficientData`. -/
theorem interpolate_sfh_empty_insufficient_witness :
    (SFH.init [] [] []).lb_time = [] ∧ (SFH.init [] [] []).sfh = [] ∧
    ((SFH.init [] [] []).interpolate_sfh [0] false (some 0)).2
      = Except.error InterpError.insufficientData :=
  ⟨rfl, rfl,
   interpolate_sfh_empty_insufficient (SFH.init [] [] []) [0] false (some 0)
     rfl rfl⟩

/-- Claim C5 (amended): for every catalogue row, the rate sequence returned
by `cigale_sfh` has ten entries: the first rate-bin value, then all nine
rate-bin values again (so the first rate-bin value appears twice), each
multiplied by the integrated-mass scalar.  The time-bin columns are not
used for rates. -/
theorem cigale_sfh_rate_sequence (galaxy : String → ℚ) :
    (cigale_sfh galaxy).2.1
      = [galaxy ("bayes.sfh.sfr_bin1"), galaxy ("bayes.sfh.sfr_bin1"),
         galaxy ("bayes.sfh.sfr_bin2"), galaxy ("bayes.sfh.sfr_bin3"),
         galaxy ("bayes.sfh.sfr_bin4"), galaxy ("bayes.sfh.sfr_bin5"),
         galaxy ("bayes.sfh.sfr_bin6"), galaxy ("bayes.sfh.sfr_bin7"),
         galaxy ("bayes.sfh.sfr_bin8"), galaxy ("bayes.sfh.sfr_bin9")].map
          (fun v => v * galaxy ("bayes.sfh.integrated")) := rfl

/-- Counterexample to C5 as stated: on a concrete row whose time-bin
columns (`101..109`) differ from its rate-bin columns (`1..9`), with
integrated-mass scalar `2`, the code returns the ten-entry rate sequence
`[2,2,4,...,18]` built from the rate-bin columns, not the nine-entry
sequence `[first rate bin, then the eight time bins 2..9] * 2` the claim
describes. -/
theorem cigale_sfh_rate_claim_cex :
    (cigale_sfh gRow).2.1 = [2, 2, 4, 6, 8, 10, 12, 14, 16, 18] ∧
    (cigale_sfh gRow).2.1
      ≠ [(2:ℚ), 204, 206, 208, 210, 212, 214, 216, 218] :=
  ⟨by with_unfolding_all rfl, of_decide_eq_true (by with_unfolding_all rfl)⟩

/-! ### Monotonicity of the time-windowed integral -/

theorem pairwise_zip_fst {ts : List ℚ} {ss : List (Option ℚ)}
    (h : ts.Pairwise (fun a b => a ≤ b)) :
    (ts.zip ss).Pairwise (fun a b => a.1 ≤ b.1) := by
  induction ts generalizing ss with
  | nil => simp
  | cons a ts ih =>
      cases ss with
      | nil => simp
      | cons s ss =>
          rw [List.pairwise_cons] at h
          rw [List.zip_cons_cons, List.pairwise_cons]
          constructor
          · intro p hp
            obtain ⟨p1, p2⟩ := p
            exact h.1 p1 (List.of_mem_zip hp).1
          · exact ih h.2

theorem filter_ge_eq_self {t : ℚ} {l : List (ℚ × Option ℚ)}
    (h : ∀ p ∈ l, t ≤ p.1) :
    l.filter (fun p => decide (t ≤ p.1)) = l := by
  rw [List.filter_eq_self]
  intro p hp
  simpa using h p hp

theorem binMass_nonneg (l : List (ℚ × Option ℚ)) :
    ∀ tprev : ℚ, l.Pairwise (fun a b => a.1 ≤ b.1) →
      (∀ p ∈ l, 0 ≤ val p.2) → (∀ p ∈ l, tprev ≤ p.1) →
      0 ≤ binMass tprev l := by
  induction l with
  | nil => intro tprev _ _ _; simp [binMass]
  | cons p r ih =>
      intro tprev hs hv hlow
      rw [List.pairwise_cons] at hs
      have h1 : 0 ≤ val p.2 * (p.1 - tprev) :=
        mul_nonneg (hv p (by simp)) (sub_nonneg.mpr (hlow p (by simp)))
      have h2 : 0 ≤ binMass p.1 r :=
        ih p.1 hs.2 (fun q hq => hv q (List.mem_cons_of_mem _ hq))
          (fun q hq => hs.1 q hq)
      simpa [binMass] using add_nonneg h1 h2

theorem binMass_filter_anti (l : List (ℚ × Option ℚ)) :
    ∀ t1 t2 : ℚ, l.Pairwise (fun a b => a.1 ≤ b.1) →
      (∀ p ∈ l, 0 ≤ val p.2) → t2 ≤ t1 →
      binMass t1 (l.filter (fun p => decide (t1 ≤ p.1)))
        ≤ binMass t2 (l.filter (fun p => decide (t2 ≤ p.1))) := by
  induction l with
  | nil => intro t1 t2 _ _ _; simp [binMass]
  | cons p r ih =>
      intro t1 t2 hs hv h12
      rw [List.pairwise_cons] at hs
      have hvr : ∀ q ∈ r, 0 ≤ val q.2 :=
        fun q hq => hv q (List.mem_cons_of_mem _ hq)
      have hvp : 0 ≤ val p.2 := hv p (by simp)
      by_cases h1 : t1 ≤ p.1
      · have h2 : t2 ≤ p.1 := le_trans h12 h1
        have hr1 : r.filter (fun q => decide (t1 ≤ q.1)) = r :=
          filter_ge_eq_self (fun q hq => le_trans h1 (hs.1 q hq))
        have hr2 : r.filter (fun q => decide (t2 ≤ q.1)) = r :=
          filter_ge_eq_self (fun q hq => le_trans h2 (hs.1 q hq))
        simp only [List.filter_cons, decide_eq_true_eq, if_pos h1, if_pos h2,
          hr1, hr2, binMass]
        have hm : val p.2 * (p.1 - t1) ≤ val p.2 * (p.1 - t2) :=
          mul_le_mul_of_nonneg_left (by linarith) hvp
        linarith
      · push_neg at h1
        by_cases h2 : t2 ≤ p.1
        · have hr2 : r.filter (fun q => decide (t2 ≤ q.1)) = r :=
            filter_ge_eq_self (fun q hq => le_trans h2 (hs.1 q hq))
          have hrp : r.filter (fun q => decide (p.1 ≤ q.1)) = r :=
            filter_ge_eq_self hs.1
          simp only [List.filter_cons, decide_eq_true_eq,
            if_neg (not_le.mpr h1), if_pos h2, hr2, binMass]
          have hstep : binMass t1 (r.filter (fun q => decide (t1 ≤ q.1)))
              ≤ binMass p.1 r := by
            have := ih t1 p.1 hs.2 hvr (le_of_lt h1)
            rwa [hrp] at this
          have hpos : 0 ≤ val p.2 * (p.1 - t2) :=
            mul_nonneg hvp (by linarith)
          linarith
        · simp only [List.filter_cons, decide_eq_true_eq,
            if_neg (not_le.mpr h1), if_neg h2]
          exact ih t1 t2 hs.2 hvr h12

/-- Claim C3 (amended): for every SFH record whose time edges are sorted
ascending and whose rates are all NaN or nonnegative, evaluating
`integrated_sfh_at` at a larger look-back time gives a result at most that
at a smaller one (non-decreasing as the query time decreases).  The
strict-increase rider of the original claim is dropped: see the
counterexample accompanying this theorem's claim record. -/
theorem integrated_sfh_at_antitone (s : SFH) (t1 t2 : ℚ)
    (hsort : s.lb_time.Pairwise (fun a b => a ≤ b))
    (hrate : ∀ r ∈ s.sfh, 0 ≤ val r) (h : t2 < t1) :
    s.integrated_sfh_at t1 ≤ s.integrated_sfh_at t2 := by
  rw [integrated_sfh_at_eq_binMass, integrated_sfh_at_eq_binMass]
  have hz := @pairwise_zip_fst s.lb_time s.sfh hsort
  have hv : ∀ p ∈ s.lb_time.zip s.sfh, 0 ≤ val p.2 := by
    intro p hp
    obtain ⟨a, b⟩ := p
    exact hrate b (List.of_mem_zip hp).2
  have hm := binMass_filter_anti (s.lb_time.zip s.sfh) t1 t2 hz hv (le_of_lt h)
  linarith

/-- Witness for C3: the repo's fixture `[0,1,10]` with positive rates, at
query times `1 > 0`. -/
theorem integrated_sfh_at_antitone_witness :
    (SFH.init [0, 1, 10] [some 1, some 2, some 3]
        [some 2, some 3, some 4]).lb_time.Pairwise (fun a b => a ≤ b) ∧
    (∀ r ∈ (SFH.init [0, 1, 10] [some 1, some 2, some 3]
        [some 2, some 3, some 4]).sfh, 0 ≤ val r) ∧
    ((0 : ℚ) < 1) ∧
    (SFH.init [0, 1, 10] [some 1, some 2, some 3]
        [some 2, some 3, some 4]).integrated_sfh_at 1
      ≤ (SFH.init [0, 1, 10] [some 1, some 2, some 3]
          [some 2, some 3, some 4]).integrated_sfh_at 0 :=
  ⟨by decide, by decide, by decide,
   integrated_sfh_at_antitone
     (SFH.init [0, 1, 10] [some 1, some 2, some 3] [some 2, some 3, some 4])
     1 0 (by decide) (by decide) (by decide)⟩

/-- Counterexample to C3 as stated: the claim quantifies over every SFH
record, but with the (unchecked) negative rate `-1` on sorted edges
`[0, 1]`, the query pair `t1 = 2 > t2 = 0` gives
`integrated_sfh_at 2 = 0 > -1e6 = integrated_sfh_at 0`. -/
theorem integrated_sfh_at_negative_rate_cex :
    (SFH.init [0, 1] [some 0, some (-1)] [some 1, some 1]).lb_time.Pairwise
      (fun a b => a ≤ b) ∧
    ((0 : ℚ) < 2) ∧
    ¬ ((SFH.init [0, 1] [some 0, some (-1)] [some 1, some 1]).integrated_sfh_at 2
        ≤ (SFH.init [0, 1] [some 0, some (-1)] [some 1, some 1]).integrated_sfh_at 0) :=
  ⟨by decide, by decide, of_decide_eq_true (by with_unfolding_all rfl)⟩

/-! ### Agreement of the windowed integral at `t = 0` with the total -/

theorem zipWith_dropLast_cons (f : ℚ → ℚ → ℚ) (x : ℚ) (l : List ℚ) :
    List.zipWith f l ((x :: l).dropLast) = List.zipWith f l (x :: l.dropLast) := by
  cases l with
  | nil => rfl
  | cons a l' => rfl

/-- Claim C4: on a record whose edges are sorted ascending with smallest
edge `0` and whose rate series has matching length, `integrated_sfh_at 0`
equals the total integral exactly. -/
theorem integrated_sfh_at_zero_eq_integral (s : SFH)
    (hsort : s.lb_time.Pairwise (fun a b => a ≤ b))
    (hhead : s.lb_time.head? = some 0)
    (hlen : s.lb_time.length = s.sfh.length) :
    s.integrated_sfh_at 0 = s.integral := by
  rw [integrated_sfh_at_eq_binMass, integral_forward s hlen]
  cases hts : s.lb_time with
  | nil => rw [hts] at hhead; cases hhead
  | cons t0 rest =>
      have ht0 : t0 = 0 := by rw [hts] at hhead; simpa using hhead
      subst ht0
      cases hss : s.sfh with
      | nil => rw [hts, hss] at hlen; simp at hlen
      | cons s0 ss' =>
          have hlen' : rest.length = ss'.length := by
            rw [hts, hss] at hlen; simpa using hlen
          rw [hts] at hsort
          rw [List.pairwise_cons] at hsort
          have hall : ∀ p ∈ (((0 : ℚ), s0) :: rest.zip ss'), (0 : ℚ) ≤ p.1 := by
            intro p hp
            rcases List.mem_cons.mp hp with hh | hh
            · rw [hh]
            · obtain ⟨a, b⟩ := p
              exact hsort.1 a (List.of_mem_zip hh).1
          rw [List.zip_cons_cons, filter_ge_eq_self hall]
          simp only [binMass, List.drop_succ_cons, List.drop_zero]
          rw [zipWith_dropLast_cons]
          have hg := nansum_gaps (rest.zip ss') 0
          rw [List.map_fst_zip rest ss' (le_of_eq hlen'),
            List.map_snd_zip rest ss' (le_of_eq hlen'.symm)] at hg
          rw [hg]
          ring

/-- Witness for C4: the repo's fixture `[0,1,10]` with rates `[1,2,3]`. -/
theorem integrated_sfh_at_zero_eq_integral_witness :
    (SFH.init [0, 1, 10] [some 1, some 2, some 3]
        [some 2, some 3, some 4]).lb_time.Pairwise (fun a b => a ≤ b) ∧
    (SFH.init [0, 1, 10] [some 1, some 2, some 3]
        [some 2, some 3, some 4]).lb_time.head? = some 0 ∧
    (SFH.init [0, 1, 10] [some 1, some 2, some 3]
        [some 2, some 3, some 4]).integrated_sfh_at 0
      = (SFH.init [0, 1, 10] [some 1, some 2, some 3]
          [some 2, some 3, some 4]).integral :=
  ⟨by decide, rfl,
   integrated_sfh_at_zero_eq_integral
     (SFH.init [0, 1, 10] [some 1, some 2, some 3] [some 2, some 3, some 4])
     (by decide) rfl rfl⟩

/-! ### NaN-safety of the two integration methods -/

theorem val_some (x : ℚ) : val (some x) = x := rfl

theorem nansum_zipWith_denan (l : List (Option ℚ)) :
    ∀ w : List ℚ,
      nansum (List.zipWith mulF (l.map (fun r => some (val r))) w)
        = nansum (List.zipWith mulF l w) := by
  induction l with
  | nil => intro w; rfl
  | cons a l ih =>
      intro w
      cases w with
      | nil => rfl
      | cons b w' =>
          simp only [List.map_cons, List.zipWith_cons_cons, nansum_cons,
            val_mulF, val_some]
          rw [ih w']

theorem integral_denan (s : SFH) :
    (SFH.init s.lb_time (denan s.sfh) s.err).integral = s.integral := by
  unfold SFH.integral
  simp only [SFH.init, denan]
  rw [← List.map_reverse, map_dropLast, nansum_zipWith_denan]

theorem binMass_map_denan (l : List (ℚ × Option ℚ)) :
    ∀ tprev : ℚ,
      binMass tprev (l.map (Prod.map id (fun r => some (val r))))
        = binMass tprev l := by
  induction l with
  | nil => intro _; rfl
  | cons p r ih =>
      intro tprev
      simp only [List.map_cons, binMass, Prod.map_fst, Prod.map_snd, id,
        val_some]
      rw [ih p.1]

theorem integrated_denan (s : SFH) (t : ℚ) :
    (SFH.init s.lb_time (denan s.sfh) s.err).integrated_sfh_at t
      = s.integrated_sfh_at t := by
  rw [integrated_sfh_at_eq_binMass, integrated_sfh_at_eq_binMass]
  simp only [SFH.init, denan]
  rw [List.zip_map_right, List.filter_map]
  have hc : ((fun p : ℚ × Option ℚ => decide (t ≤ p.1)) ∘
        Prod.map id (fun r => some (val r)))
      = fun p : ℚ × Option ℚ => decide (t ≤ p.1) := by
    funext p
    simp [Function.comp, Prod.map_fst]
  rw [hc, binMass_map_denan]

/-- Claim C8: both aggregates follow the NaN-safe sum policy.  The total
integral equals `1e6` times the sum over only the finite products (the
`filterMap id` keeps exactly the terms whose rate is not NaN), and both the
total integral and the windowed integral are unchanged when every NaN rate
is replaced by the zero it must contribute.  In this embedding both
methods return a plain rational for every input, so no NaN ever propagates
to the result. -/
theorem integral_and_windowed_nan_safe (s : SFH) (t : ℚ) :
    s.integral
      = ((List.zipWith mulF s.sfh.reverse.dropLast
          (List.zipWith (fun a b => a - b) s.lb_time.reverse.dropLast
            (s.lb_time.reverse.drop 1))).filterMap id).sum * 1000000 ∧
    (SFH.init s.lb_time (denan s.sfh) s.err).integral = s.integral ∧
    (SFH.init s.lb_time (denan s.sfh) s.err).integrated_sfh_at t
      = s.integrated_sfh_at t := by
  refine ⟨?_, integral_denan s, integrated_denan s t⟩
  unfold SFH.integral
  rw [nansum_eq_sum_filterMap]

/-! ### Mutation pattern of `interpolate_sfh` on failure -/

theorem interp1d_ok_no_ood {x : List ℚ} {y z : List (Option ℚ)} {b : Bool}
    {fv fw : Option ℚ} {g : List ℚ} {r : List (Option ℚ)}
    (hok : interp1d x y b fv g = Except.ok r) :
    interp1d x z b fw g ≠ Except.error InterpError.outOfDomain := by
  cases x with
  | nil =>
      simp only [interp1d] at hok
      split at hok <;> cases hok
  | cons x0 xs =>
      intro hbad
      simp only [interp1d] at hok hbad
      split at hok
      · split at hok
        · cases hok
        · split at hbad <;> simp at hbad
      · cases hok

/-- Claim C2 (amended): when a resampling call fails with `OutOfDomain`,
the cached resampled rate and rate-error series are left exactly as they
were, but the cached resampled time grid has already been overwritten with
the new query grid before the error propagates; the failure is not fully
clean. -/
theorem interpolate_sfh_out_of_domain_mutation (s : SFH) (grid : List ℚ)
    (bounds_error : Bool) (fill_value : Option ℚ)
    (h : (s.interpolate_sfh grid bounds_error fill_value).2
        = Except.error InterpError.outOfDomain) :
    (s.interpolate_sfh grid bounds_error fill_value).1.interp_sfh
        = s.interp_sfh ∧
    (s.interpolate_sfh grid bounds_error fill_value).1.interp_err
        = s.interp_err ∧
    (s.interpolate_sfh grid bounds_error fill_value).1.interp_lb_time
        = some grid := by
  unfold SFH.interpolate_sfh at h ⊢
  cases h1 : interp1d s.lb_time s.sfh bounds_error fill_value grid with
  | error e => exact ⟨rfl, rfl, rfl⟩
  | ok y1 =>
      cases h2 : interp1d s.lb_time s.err bounds_error fill_value grid with
      | error e2 =>
          exfalso
          rw [h1, h2] at h
          have he2 : e2 = InterpError.outOfDomain := by
            simpa using h
          rw [he2] at h2
          exact interp1d_ok_no_ood h1 h2
      | ok y2 => rw [h1, h2] at h; simp at h

/-- Witness for C2: the concrete out-of-range strict call satisfies the
hypothesis, the rate and error caches stay `None`, and the grid cache holds
the new grid. -/
theorem interpolate_sfh_out_of_domain_mutation_witness :
    ((SFH.init [0, 1] [some 1, some 2] [some 2, some 3]).interpolate_sfh
        [2] true (some 0)).2 = Except.error InterpError.outOfDomain ∧
    (((SFH.init [0, 1] [some 1, some 2] [some 2, some 3]).interpolate_sfh
        [2] true (some 0)).1.interp_sfh
      = (SFH.init [0, 1] [some 1, some 2] [some 2, some 3]).interp_sfh ∧
    ((SFH.init [0, 1] [some 1, some 2] [some 2, some 3]).interpolate_sfh
        [2] true (some 0)).1.interp_err
      = (SFH.init [0, 1] [some 1, some 2] [some 2, some 3]).interp_err ∧
    ((SFH.init [0, 1] [some 1, some 2] [some 2, some 3]).interpolate_sfh
        [2] true (some 0)).1.interp_lb_time = some [2]) :=
  ⟨by with_unfolding_all rfl,
   interpolate_sfh_out_of_domain_mutation
     (SFH.init [0, 1] [some 1, some 2] [some 2, some 3]) [2] true (some 0)
     (by with_unfolding_all rfl)⟩

/-- Counterexample to C2 as stated: on `time=[0,1]` with strict bounds and
query grid `[2]`, the call raises `OutOfDomain`, yet the cached resampled
time grid is not left as it was before the call: it changes from `None` to
the new grid `[2]`, so a partial mutation is observable on error. -/
theorem interpolate_sfh_mutates_grid_cex :
    ((SFH.init [0, 1] [some 1, some 2] [some 2, some 3]).interpolate_sfh
        [2] true (some 0)).2 = Except.error InterpError.outOfDomain ∧
    ((SFH.init [0, 1] [some 1, some 2] [some 2, some 3]).interpolate_sfh
        [2] true (some 0)).1.interp_lb_time
      ≠ (SFH.init [0, 1] [some 1, some 2] [some 2, some 3]).interp_lb_time :=
  ⟨by with_unfolding_all rfl, of_decide_eq_true (by with_unfolding_all rfl)⟩
